import Mathlib

/-!
Verification of the Imageomics repo-exporter scripts.

This file is a shallow embedding, in Lean 4, of the logic of
`export_repos.py` (and its line-for-line twin `hf_repo_exporter.py`):
the display-name codec (`extract_display_name` and the `=HYPERLINK(...)`
encoder), the sheet-reconciliation upsert in `update_google_sheet`, the
conditional-formatting applier, and the per-repository attribute
extractor `get_repo_info` with its helper functions.  External
collaborators (the GitHub API, the YAML library, the spreadsheet API)
are modelled as inputs; everything the scripts themselves compute is
translated definition-for-definition from the Python source.  Theorems
then settle the specification's claims about that logic.
-/

namespace RepoExporter

/-- One cell value as it can appear in a pandas record: a Python string,
an int (e.g. the `Stars` count), or Python's `None` (the value that
`has_readme` / `has_license` fall through to when their lookup returns a
falsy value without raising). -/
inductive Cell where
  | str (s : String)
  | num (n : Int)
  | pynone
deriving DecidableEq, Repr

/- ### Display-name codec -/

/-- The encoder: the source builds hyperlink cells with the f-string
`'=HYPERLINK("{url}", "{label}")'` (`export_repos.py` line 214 for the
"Repository Name" column, and likewise for the Yes-link cells). -/
def encodeHyperlink (url label : String) : String :=
  "=HYPERLINK(\"" ++ url ++ "\", \"" ++ label ++ "\")"

/-- Semantics of `re.search(r'"([^"]+)"\)$', val)`, computed on the
*reversed* character list of `val`.  Because the pattern is anchored at
the end of the string, any match must consist of the final characters
`"` `mid` `"` `)` where `mid` is a nonempty run free of `"`; the
opening quote is therefore forced to be the last `"` before the closing
one, so the leftmost `re.search` match (and its group 1) is exactly the
maximal quote-free run `mid` preceding the final `")`.  Returns group 1
(in source order) when the pattern matches. -/
def labelFromRev : List Char → Option (List Char)
  | c1 :: c2 :: rest =>
    if c1 = ')' then
      if c2 = '\x22' then
        let midRev := rest.takeWhile (fun c => ¬ (c = '\x22'))
        if midRev.length ≠ 0 ∧ midRev.length < rest.length then some midRev.reverse
        else none
      else none
    else none
  | _ => none

/-- `extract_display_name(val)` (`export_repos.py` lines 241–243,
`hf_repo_exporter.py` lines 329–331): return the regex group if
`re.search(r'"([^"]+)"\)$', val)` matches, otherwise `val` unchanged. -/
def extract_display_name (s : String) : String :=
  match labelFromRev s.data.reverse with
  | some mid => String.mk mid
  | none => s

/-- The hyperlink-formula shape: the image of the encoder. -/
def isHyperlinkFormula (s : String) : Prop :=
  ∃ url label, s = encodeHyperlink url label

/- ### Row reconciliation (`update_google_sheet`, `export_repos.py`
lines 245–373; `hf_repo_exporter.py` lines 333–457 are line-for-line
identical except that values pass through `ensure_string_value` — the
identity on strings — and the configured column sets differ). -/

/-- One entry of `batch_body`: a single-cell update.  The source stores
the target as the A1 string `gspread.utils.rowcol_to_a1(row_idx, col_idx)`
(1-based row and column); `rowcol_to_a1` is injective, so the (row, col)
pair models the A1 range faithfully. -/
structure CellWrite where
  row : Nat
  col : Nat
  value : Cell
deriving DecidableEq, Repr

/-- First-match association-list lookup; used to model both Python dict
lookup (`name_to_row[k]`, with the index list built most-recent-first so
that first-match equals dict overwrite-on-insert) and pandas row label
lookup (`row[k]` / `row.get(k, default)`, labels being unique within a
DataFrame row). -/
def lookupAssoc {α : Type} : List (String × α) → String → Option α
  | [], _ => none
  | (k, v) :: rest, key => if key = k then some v else lookupAssoc rest key

/-- The `name_to_row` dict (`export_repos.py` lines 273–279): iterate
`data_rows` with `enumerate(..., start=HEADER_ROW_INDEX + 1 = 3)`,
skip rows with `len(row) <= repo_col_index`, and map the decoded name of
`row[repo_col_index]` to its 1-based sheet position, later rows
overwriting earlier ones.  Later rows are placed in front so that
first-match `lookupAssoc` reproduces the dict's last-write-wins. -/
def buildNameIndex (repoColIdx : Nat) : Nat → List (List String) → List (String × Nat)
  | _, [] => []
  | off, row :: rest =>
    let tail := buildNameIndex repoColIdx (off + 1) rest
    if repoColIdx < row.length then
      tail ++ [(extract_display_name (row.getD repoColIdx ""), off)]
    else tail

/-- One fresh RepositoryRecord, as a pandas DataFrame row: an ordered
mapping from column name to cell value. -/
abbrev Rec := List (String × Cell)

/-- The inner loop `for col_idx, col_name in enumerate(header, start=1)`
(`export_repos.py` lines 293–304): skip header columns not in
`df.columns`, otherwise emit one CellWrite with `row.get(col_name, "")`. -/
def recordWrites (dfCols : List String) (r : Rec) (rowIdx : Nat) :
    Nat → List String → List CellWrite
  | _, [] => []
  | colIdx, colName :: restHeader =>
    if colName ∈ dfCols then
      ⟨rowIdx, colIdx, (lookupAssoc r colName).getD (Cell.str "")⟩
        :: recordWrites dfCols r rowIdx (colIdx + 1) restHeader
    else recordWrites dfCols r rowIdx (colIdx + 1) restHeader

/-- All CellWrites emitted for one record at target row `rowIdx`
(columns enumerated from 1, as in the source). -/
def recordWritesAll (header dfCols : List String) (r : Rec) (rowIdx : Nat) :
    List CellWrite :=
  recordWrites dfCols r rowIdx 1 header

/-- The main reconciliation loop (`export_repos.py` lines 281–304): for
each record, decode `row["Repository Name"]` (a `KeyError`, or a
`TypeError` from `re.search` on a non-string, aborts the run — modelled
as `none`); a record whose decoded name is in `name_to_row` is written at
that existing position, otherwise it is written at `len(existing) + 1`
and `existing` grows by one (only the length matters, tracked in `n`). -/
def processRecords (header dfCols : List String) (nameIdx : List (String × Nat)) :
    Nat → List Rec → Option (List CellWrite)
  | _, [] => some []
  | n, r :: rest =>
    match lookupAssoc r "Repository Name" with
    | some (Cell.str idVal) =>
      match lookupAssoc nameIdx (extract_display_name idVal) with
      | some p =>
        match processRecords header dfCols nameIdx n rest with
        | some ws => some (recordWritesAll header dfCols r p ++ ws)
        | none => none
      | none =>
        match processRecords header dfCols nameIdx (n + 1) rest with
        | some ws => some (recordWritesAll header dfCols r (n + 1) ++ ws)
        | none => none
    | _ => none

/- ### Conditional formatting -/

/-- An RGB fill color; the two literals below model the Python float
dicts `{"red": 1, "green": 0.5, "blue": 0.5}` and
`{"red": 1, "green": 0.8, "blue": 0.4}` as exact rationals (no claim
compares colors). -/
abbrev Color := ℚ × ℚ × ℚ

/-- One `addConditionalFormatRule` request (`export_repos.py` lines
349–371): the range is 0-based half-open, `startRowIndex =
HEADER_ROW_INDEX = 2`, `endRowIndex = 2 + len(df)`, one column wide; the
boolean rule highlights cells textually equal to `"No"`. -/
structure FormattingRule where
  startRowIndex : Nat
  endRowIndex : Nat
  startColumnIndex : Nat
  endColumnIndex : Nat
  backgroundColor : Color
  valueEquals : String
deriving DecidableEq, Repr

/-- `get_column_index` (`export_repos.py` lines 313–317):
`header.index(col_name)`, i.e. the first index of the column name, with
`ValueError` turned into `None`. -/
def get_column_index : List String → String → Option Nat
  | [], _ => none
  | c :: rest, colName =>
    if c = colName then some 0
    else (get_column_index rest colName).map (fun i => i + 1)

/-- The inner formatting loop `for col_name in col_set` with
`continue` on a missing column (`export_repos.py` lines 344–371). -/
def formattingRulesFor (header : List String) (dfLen : Nat) (color : Color)
    (names : List String) : List FormattingRule :=
  names.filterMap fun nm =>
    (get_column_index header nm).map fun ci =>
      ⟨2, 2 + dfLen, ci, ci + 1, color, "No"⟩

/-- The outer loop over `[(red_columns, color1), (orange_columns, color2)]`. -/
def buildFormattingRules (header : List String) (dfLen : Nat)
    (sets : List (List String × Color)) : List FormattingRule :=
  sets.flatMap fun sc => formattingRulesFor header dfLen sc.2 sc.1

/-- `red_columns` (`export_repos.py` lines 319–325).  A Python `set`
literal; iteration order is unspecified, so the literal order is kept
(no claim depends on the order of emitted rules). -/
def red_columns : List String :=
  ["README", "License", ".gitignore", "Package Requirements", "CITATION"]

/-- `orange_columns` (`export_repos.py` lines 327–336). -/
def orange_columns : List String :=
  [".zenodo.json", "CONTRIBUTING", "AGENTS", "Website Reference", "Dataset",
    "Model", "Paper Association", "DOI for GitHub Repo"]

/-- `{"red": 1, "green": 0.5, "blue": 0.5}`. -/
def redColor : Color := (mkRat 1 1, mkRat 1 2, mkRat 1 2)

/-- `{"red": 1, "green": 0.8, "blue": 0.4}`. -/
def orangeColor : Color := (mkRat 1 1, mkRat 4 5, mkRat 2 5)

/-- The severity partition used by `export_repos.py` line 341. -/
def exportFormattingSets : List (List String × Color) :=
  [(red_columns, redColor), (orange_columns, orangeColor)]

/-- `update_google_sheet(df)` (`export_repos.py` lines 245–373), with
the external spreadsheet read modelled as inputs: `header` is
`sheet.row_values(2)`, `existing` is `sheet.get_all_values()` (all rows,
1-based positions), `dfCols` is `df.columns` and `records` the rows of
`df` in order.  Returns the `batch_body` cell writes and the formatting
rules submitted at the end, or `none` when the Python code raises
(missing "Repository Name" header column, or a bad identity cell in a
record).  `HEADER_ROW_INDEX = 2`, so data rows are `existing[2:]` at
1-based positions starting at 3, and a new record is appended at
`len(existing) + 1`. -/
def update_google_sheet (header : List String) (existing : List (List String))
    (dfCols : List String) (records : List Rec) :
    Option (List CellWrite × List FormattingRule) :=
  match get_column_index header "Repository Name" with
  | none => none
  | some repoColIdx =>
    let dataRows := existing.drop 2
    let nameIdx := buildNameIndex repoColIdx 3 dataRows
    match processRecords header dfCols nameIdx existing.length records with
    | none => none
    | some ws => some (ws, buildFormattingRules header records.length exportFormattingSets)

/-- The fold state (current `len(existing)`) after processing a prefix
of the batch; used to split `processRecords` runs at a record of
interest. -/
def stateAfter (nameIdx : List (String × Nat)) : Nat → List Rec → Option Nat
  | n, [] => some n
  | n, r :: rest =>
    match lookupAssoc r "Repository Name" with
    | some (Cell.str idVal) =>
      match lookupAssoc nameIdx (extract_display_name idVal) with
      | some _ => stateAfter nameIdx n rest
      | none => stateAfter nameIdx (n + 1) rest
    | _ => none

/- ### Attribute extractor (`get_repo_info` and helpers,
`export_repos.py` lines 17–239).  The GitHub repository handle is
modelled as a snapshot of the remote state: plain attributes are plain
fields, fallible method calls are `Except`-valued fields (`.error` for a
raised exception, `Option.none` for a falsy (`None`) result), and the
external `yaml.safe_load` is an input function.  Regex URL searches are
implemented concretely below. -/

/-- The Python exceptions distinguished by the scripts' handlers:
`GithubException` (caught by `has_file`/`has_readme`/`has_license`),
`TypeError` (raised by a wrong-arity call), and everything else. -/
inductive PyExc where
  | githubExc
  | typeError
  | otherExc
deriving DecidableEq, Repr

/-- A content file as used by the scripts: only its decoded text matters
(`decoded_content.decode(...)` is modelled at the string level). -/
structure ContentFile where
  decoded_content : String

structure Author where
  name : String
  login : String

/-- One commit as consumed by `get_repo_creator`: only `.author`. -/
structure CommitT where
  author : Option Author

/-- One weekly stat entry: `week.a` additions, `week.d` deletions. -/
structure WeekStat where
  a : Nat
  d : Nat

/-- One entry of `repo.get_stats_contributors()`. -/
structure ContributorStat where
  author : Option Author
  weeks : List WeekStat

/-- A datetime as consumed by the scripts: the calendar fields feed
`strftime("%Y-%m-%d")` and `epoch` (seconds, read as UTC) feeds the
`<` comparison in `is_inactive`; `replace(tzinfo=utc)` on a naive value
is the identity on this UTC reading. -/
structure PyDate where
  year : Nat
  month : Nat
  day : Nat
  epoch : Int

/-- The GitHub repository handle (`repo`), as a snapshot: the attribute
and method names follow PyGithub; `isPrivate` stands for `repo.private`
(`private` is a Lean keyword). -/
structure Repo where
  html_url : String
  name : String
  description : Option String
  created_at : PyDate
  updated_at : PyDate
  stargazers_count : Int
  isPrivate : Bool
  fork : Bool
  homepage : Option String
  get_contents : String → Except PyExc (Option ContentFile)
  get_readme : Except PyExc (Option ContentFile)
  get_license : Except PyExc (Option Unit)
  get_branches_totalCount : Except PyExc Int
  get_commits : Except PyExc (List CommitT)
  get_stats_contributors : Except PyExc (Option (List ContributorStat))
  get_languages : Except PyExc (List (String × Int))

/-- `has_file(repo, *paths)` (lines 18–25): `"Yes"` on the first truthy
`get_contents`; a `GithubException` — or a falsy result — moves on to
the next path; any other exception propagates; `"No"` after the loop. -/
def has_file (repo : Repo) : List String → Except PyExc String
  | [] => Except.ok "No"
  | p :: rest =>
    match repo.get_contents p with
    | Except.ok (some _) => Except.ok "Yes"
    | Except.ok none => has_file repo rest
    | Except.error PyExc.githubExc => has_file repo rest
    | Except.error e => Except.error e

/-- `has_readme(repo)` (lines 27–32): `"Yes"` on a truthy
`get_readme()`, `"No"` on `GithubException` — and `None` (falling off
the end of the function) when `get_readme()` returns a falsy value
without raising.  Other exceptions propagate. -/
def has_readme (repo : Repo) : Except PyExc Cell :=
  match repo.get_readme with
  | Except.ok (some _) => Except.ok (Cell.str "Yes")
  | Except.ok none => Except.ok Cell.pynone
  | Except.error PyExc.githubExc => Except.ok (Cell.str "No")
  | Except.error e => Except.error e

/-- `has_license(repo)` (lines 34–39): same shape as `has_readme`. -/
def has_license (repo : Repo) : Except PyExc Cell :=
  match repo.get_license with
  | Except.ok (some _) => Except.ok (Cell.str "Yes")
  | Except.ok none => Except.ok Cell.pynone
  | Except.error PyExc.githubExc => Except.ok (Cell.str "No")
  | Except.error e => Except.error e

/-- `get_num_branches(repo)` (lines 41–45): the bare `except:` catches
every exception, yielding `"N/A"`. -/
def get_num_branches (repo : Repo) : Cell :=
  match repo.get_branches_totalCount with
  | Except.ok n => Cell.num n
  | Except.error _ => Cell.str "N/A"

/-- `get_repo_creator(repo)` (lines 47–54): `commits.reversed[0]` is the
oldest commit (IndexError on an empty history is caught, as is a `None`
author via the `if author else "N/A"` guard and `except Exception`). -/
def get_repo_creator (repo : Repo) : String :=
  match repo.get_commits with
  | Except.error _ => "N/A"
  | Except.ok commits =>
    match commits.reverse with
    | [] => "N/A"
    | first :: _ =>
      match first.author with
      | some a => a.name ++ " (" ++ a.login ++ ")"
      | none => "N/A"

/-- `total_additions + total_deletions` for one contributor (lines 72–74). -/
def contributorTotal (c : ContributorStat) : Nat :=
  (c.weeks.map (fun w => w.a)).sum + (c.weeks.map (fun w => w.d)).sum

/-- Stable descending insertion for `sorted(..., key=lambda x: x[2],
reverse=True)`: an element is placed before the first strictly smaller
key, after equal keys, preserving encounter order among ties — the
behaviour of Python's stable sort with `reverse=True`. -/
def insertByDesc {α : Type} (key : α → Nat) (x : α) : List α → List α
  | [] => [x]
  | y :: ys => if key y ≤ key x then x :: y :: ys else y :: insertByDesc key x ys

def sortByDesc {α : Type} (key : α → Nat) : List α → List α
  | [] => []
  | x :: xs => insertByDesc key x (sortByDesc key xs)

/-- `get_top_contributors(repo, top_n)` (lines 56–81).  The bounded
polling loop (5 attempts with `time.sleep(2)`) collapses in this
snapshot model: a falsy stats result (`None` or the empty list) on every
attempt yields `"N/A"`.  A `None` `contributor.author` raises
`AttributeError` at `.name`, caught by `except Exception` → `"N/A"`. -/
def get_top_contributors (repo : Repo) (top_n : Nat) : String :=
  match repo.get_stats_contributors with
  | Except.error _ => "N/A"
  | Except.ok none => "N/A"
  | Except.ok (some stats) =>
    if stats.length = 0 then "N/A"
    else
      match stats.mapM (fun c => c.author.map
          (fun a => (a.name, a.login, contributorTotal c))) with
      | none => "N/A"
      | some contributors =>
        let sortedC := sortByDesc (fun t => t.2.2) contributors
        String.intercalate ", "
          ((sortedC.take top_n).map (fun t => t.1 ++ " (" ++ t.2.1 ++ ")"))

/-- `is_inactive(repo)` (lines 83–93): `"Yes"` iff `updated_at` is older
than `now - 365 days`; the timezone `replace` is the identity on the
UTC-read `epoch`, and the `except → "No"` branch is unreachable in this
model. -/
def is_inactive (repo : Repo) (now : Int) : String :=
  if repo.updated_at.epoch < now - 365 * 86400 then "Yes" else "No"

/-- A YAML value as returned by `yaml.safe_load`. -/
inductive Yaml where
  | str (s : String)
  | int (n : Int)
  | bool (b : Bool)
  | null
  | list (xs : List Yaml)
  | dict (kvs : List (String × Yaml))

/-- Python `str.lower()` at the character-list level (`String.toLower`
is avoided because `String.map` does not reduce in the kernel;
`Char.toLower` lowercases ASCII letters, which is what the scripts'
inputs contain). -/
def pyToLower (s : String) : String := String.mk (s.data.map Char.toLower)

/-- Python `.lower()` on a value expected to be a string: any other
type raises `AttributeError`. -/
def pyLower : Yaml → Except PyExc String
  | Yaml.str s => Except.ok (pyToLower s)
  | _ => Except.error PyExc.otherExc

/-- Python's `\s` class (ASCII): the character class complemented by
`[^\s]` in the dataset patterns. -/
def isPySpace (c : Char) : Bool :=
  c = ' ' ∨ c = '\x09' ∨ c = '\x0a' ∨ c = '\x0d' ∨ c = '\x0b' ∨ c = '\x0c'

/-- Python `str.strip()` (no arguments): remove leading and trailing
whitespace.  (`String.trim` is not used because its `Substring`
machinery does not reduce in the kernel.) -/
def pyStrip (s : String) : String :=
  String.mk (((s.data.dropWhile isPySpace).reverse.dropWhile isPySpace).reverse)

/-- One iteration of the `for identifier in identifiers` loop of
`has_doi` (lines 113–132): case 2 (`type: doi` with a nonempty string
`value`) falls through, within the same iteration, to case 3
(`doi: <value>`); `identifier.get("type", "").lower()` raises on a
non-string `type` value. -/
def checkIdentifier (idf : Yaml) : Except PyExc Bool :=
  match idf with
  | Yaml.dict kvs => do
    let tl ← pyLower ((lookupAssoc kvs "type").getD (Yaml.str ""))
    let case2 : Bool :=
      if tl = "doi" then
        match lookupAssoc kvs "value" with
        | some (Yaml.str v) => pyStrip v != ""
        | _ => false
      else false
    if case2 then return true
    else
      match lookupAssoc kvs "doi" with
      | some (Yaml.str v) => return (pyStrip v != "")
      | _ => return false
  | _ => Except.ok false

def checkIdentifiers : List Yaml → Except PyExc Bool
  | [] => Except.ok false
  | idf :: rest => do
    let b ← checkIdentifier idf
    if b then return true else checkIdentifiers rest

/-- `has_doi(repo)` (lines 95–137), with `yaml.safe_load` supplied as
the external input `yload`.  Any exception — missing or unreadable
`CITATION.cff`, a YAML parse error, a malformed identifier entry — is
caught by `except Exception` and yields `"No"`. -/
def has_doi (yload : String → Except PyExc Yaml) (repo : Repo) : String :=
  let body : Except PyExc String := do
    let f ← (match repo.get_contents "CITATION.cff" with
      | Except.ok (some f) => Except.ok f
      | Except.ok none => Except.error PyExc.otherExc
      | Except.error e => Except.error e)
    let data ← yload f.decoded_content
    match data with
    | Yaml.dict kvs =>
      let top : Bool :=
        match lookupAssoc kvs "doi" with
        | some (Yaml.str d) => pyStrip d != ""
        | _ => false
      if top then return "Yes"
      else
        match (lookupAssoc kvs "identifiers").getD (Yaml.list []) with
        | Yaml.list l => do
          let b ← checkIdentifiers l
          if b then return "Yes" else return "No"
        | _ => return "No"
    | _ => return "No"
  match body with
  | Except.ok r => r
  | Except.error _ => "No"

/-- The class `[A-Za-z0-9_\-./]` of the model/paper URL patterns. -/
def isUrlPathChar (c : Char) : Bool :=
  ('A' ≤ c ∧ c ≤ 'Z') ∨ ('a' ≤ c ∧ c ≤ 'z') ∨ ('0' ≤ c ∧ c ≤ '9')
    ∨ c = '_' ∨ c = '-' ∨ c = '.' ∨ c = '/'

/-- Match a literal pattern fragment at the head of the input (case
insensitively when `ci`, for `re.IGNORECASE`), returning the rest. -/
def matchLitCI (ci : Bool) : List Char → List Char → Option (List Char)
  | cs, [] => some cs
  | [], _ :: _ => none
  | c :: cs, l :: ls =>
    if (if ci then c.toLower = l.toLower else c = l) then matchLitCI ci cs ls
    else none

/-- Try to match `https?` ++ `lit` ++ `cls*` (or `cls+` when
`allowEmpty` is false) at the start of `cs`, returning the match
length.  The optional `s` is tried greedily first, with regex
backtracking to the no-`s` branch. -/
def tryMatchHttpAt (ci : Bool) (lit : List Char) (cls : Char → Bool)
    (allowEmpty : Bool) (cs : List Char) : Option Nat :=
  match matchLitCI ci cs ['h', 't', 't', 'p'] with
  | none => none
  | some rest =>
    let tryLit : List Char → Nat → Option Nat := fun r consumedS =>
      match matchLitCI ci r lit with
      | none => none
      | some r2 =>
        let run := (r2.takeWhile cls).length
        if run = 0 ∧ ¬ allowEmpty then none
        else some (4 + consumedS + lit.length + run)
    match rest with
    | c :: rest2 =>
      if (if ci then c.toLower = 's' else c = 's') then
        match tryLit rest2 1 with
        | some n => some n
        | none => tryLit rest 0
      else tryLit rest 0
    | [] => tryLit rest 0

/-- `re.search` for the URL patterns: scan left to right for the first
position admitting a match, take the greedy match there. -/
def reSearchHttp (ci : Bool) (lit : List Char) (cls : Char → Bool)
    (allowEmpty : Bool) : List Char → Option (List Char)
  | [] => none
  | cs@(_ :: rest) =>
    match tryMatchHttpAt ci lit cls allowEmpty cs with
    | some n => some (cs.take n)
    | none => reSearchHttp ci lit cls allowEmpty rest

/-- The trailing characters stripped by `url.rstrip(").],};:>\"'")`. -/
def rstripChars : List Char :=
  [')', '.', ']', ',', '\x7d', ';', ':', '>', '\x22', '\x27']

def rstripUrl (cs : List Char) : List Char :=
  (cs.reverse.dropWhile (fun c => c ∈ rstripChars)).reverse

/-- `f'=HYPERLINK("{url}", "Yes")'`. -/
def hyperlinkYes (url : String) : String := encodeHyperlink url "Yes"

/-- `get_dataset(readme, repo_name)` (lines 139–157): three patterns
tried in order, `IGNORECASE`, `[^\s]+` after the dataset/collection
prefixes and `[^\s]*` after the `tree/main/data` prefix.  `repo_name`
is interpolated into the second pattern literally (the names at hand
contain no regex metacharacters). -/
def get_dataset (readme : String) (repo_name : String) : String :=
  match reSearchHttp true "://huggingface.co/datasets/".data
      (fun c => ¬ isPySpace c) false readme.data with
  | some m => hyperlinkYes (String.mk (rstripUrl m))
  | none =>
    match reSearchHttp true
        ("://github.com/imageomics/" ++ repo_name ++ "/tree/main/data").data
        (fun c => ¬ isPySpace c) true readme.data with
    | some m => hyperlinkYes (String.mk (rstripUrl m))
    | none =>
      match reSearchHttp true "://huggingface.co/collections/".data
          (fun c => ¬ isPySpace c) false readme.data with
      | some m => hyperlinkYes (String.mk (rstripUrl m))
      | none => "No"

/-- `get_model(readme)` (lines 159–171): declared with a *single*
parameter; searches for a Hugging Face model link. -/
def get_model (readme : String) : String :=
  match reSearchHttp false "://huggingface.co/imageomics/".data
      isUrlPathChar false readme.data with
  | some m => hyperlinkYes (String.mk (rstripUrl m))
  | none => "No"

/-- The call `get_model(readme_content_lower, repo.homepage)` at
`export_repos.py` line 236: `get_model` takes one parameter `readme`,
so this two-positional-argument call raises `TypeError` in Python
*before* `get_model`'s body (and its `except`) can run.  The faithful
model of this call site is therefore the raised `TypeError`. -/
def get_model_call2 (readme_content_lower : String)
    (homepage : Option String) : Except PyExc Cell :=
  Except.error PyExc.typeError

def paperPatternLits : List (List Char) :=
  ["://arxiv.org/".data, "://doi.org/".data, "://link.springer.com/".data,
    "://www.nature.com/".data, "://dl.acm.org/".data,
    "://ieeexplore.ieee.org/".data, "://www.researchgate.net/".data]

def paperSearch (readme : String) : List (List Char) → String
  | [] => "No"
  | lit :: rest =>
    match reSearchHttp false lit isUrlPathChar false readme.data with
    | some m => hyperlinkYes (String.mk (rstripUrl m))
    | none => paperSearch readme rest

/-- `get_associated_paper(readme)` (lines 183–204): seven publisher
patterns tried in order. -/
def get_associated_paper (readme : String) : String :=
  paperSearch readme paperPatternLits

/-- `max(languages, key=languages.get)`: first key of maximal value in
iteration order (strictly-greater replacement). -/
def maxKeyGo (best : String × Int) : List (String × Int) → String × Int
  | [] => best
  | kv :: rest => maxKeyGo (if kv.2 > best.2 then kv else best) rest

/-- `get_primary_language(repo)` (lines 173–181). -/
def get_primary_language (repo : Repo) : String :=
  match repo.get_languages with
  | Except.error _ => "N/A"
  | Except.ok [] => "N/A"
  | Except.ok (kv :: rest) => (maxKeyGo kv rest).1

def padNum (width : Nat) (n : Nat) : String :=
  let s := toString n
  String.mk (List.replicate (width - s.length) '0') ++ s

/-- `strftime("%Y-%m-%d")`. -/
def strftimeYMD (d : PyDate) : String :=
  padNum 4 d.year ++ "-" ++ padNum 2 d.month ++ "-" ++ padNum 2 d.day

/-- `get_repo_info(repo)` (lines 207–239): the dict literal's values are
evaluated in source order, so the fallible entries are sequenced here in
that same order (README, License, the six `has_file` columns, then the
`get_model` call of line 236); the first raised exception aborts the
whole record.  `yload` models `yaml.safe_load`, `now` the current time
used by `is_inactive`. -/
def get_repo_info (yload : String → Except PyExc Yaml) (now : Int)
    (repo : Repo) : Except PyExc (List (String × Cell)) := do
  let readme_content_lower : String :=
    match repo.get_readme with
    | Except.ok (some f) => pyToLower f.decoded_content
    | _ => ""
  let readmeCell ← has_readme repo
  let licenseCell ← has_license repo
  let gitignoreCell ← has_file repo [".gitignore"]
  let pkgCell ← has_file repo
    ["requirements.txt", "environment.yaml", "environment.yml", "pyproject.toml"]
  let citationCell ← has_file repo ["CITATION.cff"]
  let zenodoCell ← has_file repo [".zenodo.json"]
  let contribCell ← has_file repo ["CONTRIBUTING.md"]
  let agentsCell ← has_file repo ["AGENTS.md"]
  let modelCell ← get_model_call2 readme_content_lower repo.homepage
  pure
    [("Repository Name", Cell.str (encodeHyperlink repo.html_url repo.name)),
      ("Description", Cell.str (match repo.description with
        | some s => if s = "" then "N/A" else s
        | none => "N/A")),
      ("Date Created", Cell.str (strftimeYMD repo.created_at)),
      ("Last Updated", Cell.str (strftimeYMD repo.updated_at)),
      ("Created By", Cell.str (get_repo_creator repo)),
      ("Top 4 Contributors (lines of code changes)",
        Cell.str (get_top_contributors repo 4)),
      ("Stars", Cell.num repo.stargazers_count),
      ("# of Branches", get_num_branches repo),
      ("README", readmeCell),
      ("License", licenseCell),
      (".gitignore", Cell.str gitignoreCell),
      ("Package Requirements", Cell.str pkgCell),
      ("CITATION", Cell.str citationCell),
      (".zenodo.json", Cell.str zenodoCell),
      ("CONTRIBUTING", Cell.str contribCell),
      ("AGENTS", Cell.str agentsCell),
      ("Language", Cell.str (get_primary_language repo)),
      ("Visibility", Cell.str (if repo.isPrivate then "Private" else "Public")),
      ("Forks", Cell.str (if repo.fork then "Yes" else "No")),
      ("Inactive", Cell.str (is_inactive repo now)),
      ("Website Reference", Cell.str (match repo.homepage with
        | some h => if h = "" then "No" else encodeHyperlink h "Yes"
        | none => "No")),
      ("Dataset", Cell.str (get_dataset readme_content_lower (pyToLower repo.name))),
      ("Model", modelCell),
      ("Paper Association", Cell.str (get_associated_paper readme_content_lower)),
      ("DOI for GitHub Repo", Cell.str (has_doi yload repo))]

/-- A concrete, otherwise well-behaved repository handle whose
`get_contents` lookup raises (`GithubException`) for `CITATION.cff` —
the handle of C6's concrete scenario. -/
def citationThrowRepo : Repo :=
  ⟨"https://github.com/Imageomics/demo", "demo", some "A demo repository",
    ⟨2024, 1, 2, 1704153600⟩, ⟨2025, 6, 1, 1748736000⟩, 3, false, false, none,
    fun p => if p = "CITATION.cff" then Except.error PyExc.githubExc
      else Except.ok (some ⟨""⟩),
    Except.ok (some ⟨"# Demo readme"⟩), Except.ok (some ()), Except.ok 2,
    Except.ok [⟨some ⟨"Ada", "ada"⟩⟩],
    Except.ok (some [⟨some ⟨"Ada", "ada"⟩, [⟨1, 2⟩]⟩]),
    Except.ok [("Python", 100)]⟩

/-- A handle whose `get_readme()` / `get_license()` return a falsy value
without raising — the hypothetical of claim C10. -/
def falsyReadmeRepo : Repo :=
  ⟨"https://github.com/Imageomics/empty", "empty", none,
    ⟨2024, 1, 2, 1704153600⟩, ⟨2025, 6, 1, 1748736000⟩, 0, false, false, none,
    fun _ => Except.ok none,
    Except.ok none, Except.ok none, Except.ok 1,
    Except.ok [], Except.ok none, Except.ok []⟩

/- ### Helper lemmas about the codec -/

theorem strdata_append (a b : String) : (a ++ b).data = a.data ++ b.data := rfl

theorem takeWhile_append_stop {p : Char → Bool} :
    ∀ (mid : List Char) (c : Char) (L : List Char),
      (∀ x ∈ mid, p x = true) → p c = false →
      (mid ++ c :: L).takeWhile p = mid
  | [], c, L, _, hc => by simp [List.takeWhile_cons, hc]
  | x :: xs, c, L, h, hc => by
    have hx : p x = true := h x (by simp)
    simp [List.takeWhile_cons, hx,
      takeWhile_append_stop xs c L (fun y hy => h y (by simp [hy])) hc]

theorem labelFromRev_of_shape (mid L : List Char) (hne : mid ≠ [])
    (hq : ∀ c ∈ mid, c ≠ '\x22') :
    labelFromRev (')' :: '\x22' :: (mid ++ '\x22' :: L)) = some mid.reverse := by
  have hred : labelFromRev (')' :: '\x22' :: (mid ++ '\x22' :: L))
      = (if ((mid ++ '\x22' :: L).takeWhile (fun c => ¬ (c = '\x22'))).length ≠ 0 ∧
            ((mid ++ '\x22' :: L).takeWhile (fun c => ¬ (c = '\x22'))).length
              < (mid ++ '\x22' :: L).length
         then some ((mid ++ '\x22' :: L).takeWhile (fun c => ¬ (c = '\x22'))).reverse
         else none) := rfl
  have htw : (mid ++ '\x22' :: L).takeWhile (fun c => ¬ (c = '\x22')) = mid := by
    apply takeWhile_append_stop
    · intro x hx
      simpa using hq x hx
    · simp
  rw [hred, htw]
  have hlen : mid.length ≠ 0 := by
    simpa [List.length_eq_zero] using hne
  have hlt : mid.length < (mid ++ '\x22' :: L).length := by
    simp only [List.length_append, List.length_cons]
    omega
  simp [hlen, hlt]

theorem mem_takeWhile {p : Char → Bool} :
    ∀ (l : List Char) (a : Char), a ∈ l.takeWhile p → p a = true ∧ a ∈ l
  | [], a, h => by simp [List.takeWhile] at h
  | x :: xs, a, h => by
    by_cases hx : p x
    · rw [List.takeWhile_cons, if_pos hx] at h
      rcases List.mem_cons.mp h with h | h
      · subst h; exact ⟨hx, by simp⟩
      · rcases mem_takeWhile xs a h with ⟨h1, h2⟩
        exact ⟨h1, by simp [h2]⟩
    · rw [List.takeWhile_cons, if_neg hx] at h
      simp at h

theorem dropWhile_head_false {p : Char → Bool} :
    ∀ (l : List Char), l.dropWhile p ≠ [] →
      p ((l.dropWhile p).headD ' ') = false
  | [], h => by simp [List.dropWhile] at h
  | x :: xs, h => by
    by_cases hx : p x
    · rw [List.dropWhile_cons, if_pos hx] at h ⊢
      exact dropWhile_head_false xs h
    · rw [List.dropWhile_cons, if_neg hx] at h ⊢
      simpa using hx

/-- Inversion: a successful `labelFromRev` forces the list to have the
trailing-label shape. -/
theorem labelFromRev_some {l mid : List Char} (h : labelFromRev l = some mid) :
    ∃ L, l = ')' :: '\x22' :: (mid.reverse ++ '\x22' :: L) ∧ mid ≠ [] ∧
      ∀ c ∈ mid, c ≠ '\x22' := by
  rcases l with _ | ⟨c1, _ | ⟨c2, rest⟩⟩
  · simp [labelFromRev] at h
  · simp [labelFromRev] at h
  by_cases h1 : c1 = ')'
  swap
  · simp [labelFromRev, h1] at h
  by_cases h2 : c2 = '\x22'
  swap
  · simp [labelFromRev, h1, h2] at h
  subst h1; subst h2
  have hred : labelFromRev (')' :: '\x22' :: rest)
      = (if (rest.takeWhile (fun c => ¬ (c = '\x22'))).length ≠ 0 ∧
            (rest.takeWhile (fun c => ¬ (c = '\x22'))).length < rest.length
         then some (rest.takeWhile (fun c => ¬ (c = '\x22'))).reverse
         else none) := rfl
  rw [hred] at h
  set p : Char → Bool := fun c => ¬ (c = '\x22') with hp
  set midRev := rest.takeWhile p with hmidRev
  by_cases h3 : midRev.length ≠ 0 ∧ midRev.length < rest.length
  swap
  · rw [if_neg h3] at h
    exact absurd h (by simp)
  rw [if_pos h3] at h
  have hmid : mid = midRev.reverse := (Option.some_injective _ h).symm
  have hdec : midRev ++ rest.dropWhile p = rest := by
    rw [hmidRev]
    exact List.takeWhile_append_dropWhile p rest
  have hdne : rest.dropWhile p ≠ [] := by
    intro hnil
    rw [hnil, List.append_nil] at hdec
    rw [hdec] at h3
    exact absurd h3.2 (lt_irrefl _)
  obtain ⟨d, L, hdL⟩ : ∃ d L, rest.dropWhile p = d :: L := by
    cases hE : rest.dropWhile p with
    | nil => exact absurd hE hdne
    | cons d L => exact ⟨d, L, rfl⟩
  have hhead := dropWhile_head_false (p := p) rest hdne
  rw [hdL] at hhead
  have hd : d = '\x22' := by
    simp only [List.headD_cons, hp] at hhead
    simpa using hhead
  have hrest : rest = midRev ++ '\x22' :: L := by
    rw [← hdec, hdL, hd]
  refine ⟨L, ?_, ?_, ?_⟩
  · rw [hmid, List.reverse_reverse, hrest]
  · intro hc
    rw [hmid] at hc
    have := congrArg List.length hc
    simp at this
    exact h3.1 (by simp [this])
  · intro c hc
    rw [hmid, List.mem_reverse] at hc
    have := (mem_takeWhile (p := p) rest c (hmidRev ▸ hc)).1
    simpa [hp] using this

theorem string_eq_of_data {a b : String} (h : a.data = b.data) : a = b := by
  cases a with
  | mk la =>
    cases b with
    | mk lb => exact congrArg String.mk h

theorem extract_eq_of_label {s : String} {mid : List Char}
    (h : labelFromRev s.data.reverse = some mid) :
    extract_display_name s = String.mk mid := by
  unfold extract_display_name
  rw [h]

theorem extract_eq_of_none {s : String} (h : labelFromRev s.data.reverse = none) :
    extract_display_name s = s := by
  unfold extract_display_name
  rw [h]

theorem encode_data_rev (u t : String) :
    (encodeHyperlink u t).data.reverse
      = ')' :: '\x22' :: (t.data.reverse ++ '\x22' ::
          (' ' :: ',' :: '\x22' :: (u.data.reverse ++
            ['\x22', '(', 'K', 'N', 'I', 'L', 'R', 'E', 'P', 'Y', 'H', '=']))) := by
  have hdata : (encodeHyperlink u t).data
      = ((((['=', 'H', 'Y', 'P', 'E', 'R', 'L', 'I', 'N', 'K', '(', '\x22'] ++ u.data)
          ++ ['\x22', ',', ' ', '\x22']) ++ t.data) ++ ['\x22', ')']) := rfl
  rw [hdata]
  simp [List.reverse_append]

/- ### Claims C4 and C5: the display-name codec -/

/-- Claim C4 counterexample: the claim quantifies over *every* display
text without a double quote, but the empty display text fails to round
trip: `extract_display_name('=HYPERLINK("https://x", "")')` returns the
whole formula unchanged (the regex group `[^"]+` needs a nonempty
label), not the empty string. -/
theorem c4_counterexample :
    extract_display_name (encodeHyperlink "https://x" "") ≠ "" := by decide

/-- Claim C4 (amended): for every *nonempty* display text `t` containing
no double-quote character and every URL `u`,
`extract_display_name('=HYPERLINK("u", "t")') = t`. -/
theorem c4_decode_encode_roundtrip (u t : String) (hne : t ≠ "")
    (hq : ∀ c ∈ t.data, c ≠ '\x22') :
    extract_display_name (encodeHyperlink u t) = t := by
  have hq' : ∀ c ∈ t.data.reverse, c ≠ '\x22' := fun c hc =>
    hq c (List.mem_reverse.mp hc)
  have hne' : t.data.reverse ≠ [] := by
    intro hc
    apply hne
    have hdat : t.data = [] := List.reverse_eq_nil_iff.mp hc
    cases t with
    | mk l =>
      have hl : l = [] := hdat
      rw [hl]
  have hlab : labelFromRev (encodeHyperlink u t).data.reverse
      = some (t.data.reverse.reverse) := by
    rw [encode_data_rev u t]
    exact labelFromRev_of_shape _ _ hne' hq'
  rw [extract_eq_of_label hlab, List.reverse_reverse]

/-- Witness for the amended C4 at a concrete input. -/
theorem c4_decode_encode_roundtrip_witness :
    extract_display_name (encodeHyperlink "https://github.com/Imageomics/demo" "demo")
      = "demo" :=
  c4_decode_encode_roundtrip "https://github.com/Imageomics/demo" "demo"
    (by decide) (by decide)

/-- Claim C5 counterexample: `"note \"x\")"` is a plain cell string that
is not a hyperlink formula (it is not in the image of the encoder), yet
`extract_display_name` does not return it unchanged — it truncates it to
the trailing quoted label `"x"`. -/
theorem c5_counterexample :
    extract_display_name "note \x22x\x22)" = "x"
    ∧ extract_display_name "note \x22x\x22)" ≠ "note \x22x\x22)"
    ∧ ¬ isHyperlinkFormula "note \x22x\x22)" := by
  refine ⟨by decide, by decide, ?_⟩
  rintro ⟨url, label, h⟩
  have hd := congrArg (fun s : String => s.data.headD ' ') h
  exact absurd (show ('n' : Char) = '=' from hd) (by decide)

/-- Claim C5 (amended): `extract_display_name` is total and returns its
input unchanged unless the input ends in `"label")` for some nonempty
quote-free `label`, in which case it returns that label (even when the
input is not a hyperlink formula). -/
theorem c5_decode_total (s : String) :
    extract_display_name s = s
    ∨ ∃ pre mid : String, mid ≠ "" ∧ (∀ c ∈ mid.data, c ≠ '\x22')
        ∧ s = pre ++ "\x22" ++ mid ++ "\x22)"
        ∧ extract_display_name s = mid := by
  cases h : labelFromRev s.data.reverse with
  | none => exact Or.inl (extract_eq_of_none h)
  | some mid =>
    right
    obtain ⟨L, hshape, hne, hq⟩ := labelFromRev_some h
    refine ⟨String.mk L.reverse, String.mk mid, ?_, ?_, ?_, extract_eq_of_label h⟩
    · intro hc
      exact hne (congrArg String.data hc)
    · intro c hc
      exact hq c hc
    · apply string_eq_of_data
      have hsd : s.data = (')' :: '\x22' :: (mid.reverse ++ '\x22' :: L)).reverse := by
        rw [← hshape, List.reverse_reverse]
      rw [hsd]
      show (')' :: '\x22' :: (mid.reverse ++ '\x22' :: L)).reverse
        = ((L.reverse ++ ['\x22']) ++ mid) ++ ['\x22', ')']
      simp [List.reverse_append, List.append_assoc]

/- ### Helper lemmas about the reconciler -/

theorem lookupAssoc_append {α : Type} (l1 l2 : List (String × α)) (key : String) :
    lookupAssoc (l1 ++ l2) key
      = match lookupAssoc l1 key with
        | some v => some v
        | none => lookupAssoc l2 key := by
  induction l1 with
  | nil => simp [lookupAssoc]
  | cons kv rest ih =>
    obtain ⟨k, v⟩ := kv
    by_cases hk : key = k
    · simp [lookupAssoc, hk]
    · simp [lookupAssoc, hk, ih]

/-- Soundness of the name index: a successful lookup points at an
existing data row (at 1-based position `off + j`) whose decoded identity
is the key. -/
theorem lookup_buildNameIndex_some (repoColIdx : Nat) :
    ∀ (rows : List (List String)) (off : Nat) (key : String) (p : Nat),
      lookupAssoc (buildNameIndex repoColIdx off rows) key = some p →
      ∃ j, j < rows.length ∧ p = off + j ∧ repoColIdx < (rows.getD j []).length ∧
        extract_display_name ((rows.getD j []).getD repoColIdx "") = key := by
  intro rows
  induction rows with
  | nil =>
    intro off key p h
    simp [buildNameIndex, lookupAssoc] at h
  | cons row rest ih =>
    intro off key p h
    simp only [buildNameIndex] at h
    by_cases hc : repoColIdx < row.length
    · rw [if_pos hc, lookupAssoc_append] at h
      cases hl : lookupAssoc (buildNameIndex repoColIdx (off + 1) rest) key with
      | some q =>
        rw [hl] at h
        simp only [Option.some.injEq] at h
        subst h
        obtain ⟨j, hj, hp, hlen, hkey⟩ := ih (off + 1) key q hl
        exact ⟨j + 1, by simpa using Nat.succ_lt_succ hj, by omega,
          by simpa [List.getD_cons_succ] using hlen,
          by simpa [List.getD_cons_succ] using hkey⟩
      | none =>
        rw [hl] at h
        simp only [lookupAssoc] at h
        by_cases hkey : key = extract_display_name (row.getD repoColIdx "")
        · rw [if_pos hkey] at h
          simp only [Option.some.injEq] at h
          exact ⟨0, by simp, by omega, by simpa using hc, by simp [hkey]⟩
        · rw [if_neg hkey] at h
          exact absurd h (by simp)
    · rw [if_neg hc] at h
      obtain ⟨j, hj, hp, hlen, hkey⟩ := ih (off + 1) key p h
      exact ⟨j + 1, by simpa using Nat.succ_lt_succ hj, by omega,
        by simpa [List.getD_cons_succ] using hlen,
        by simpa [List.getD_cons_succ] using hkey⟩

/-- Completeness of the name index: if some data row (long enough to
hold the identity column) decodes to the key, the lookup succeeds. -/
theorem lookup_buildNameIndex_of_match (repoColIdx : Nat) :
    ∀ (rows : List (List String)) (off : Nat) (key : String) (j : Nat),
      j < rows.length → repoColIdx < (rows.getD j []).length →
      extract_display_name ((rows.getD j []).getD repoColIdx "") = key →
      ∃ p, lookupAssoc (buildNameIndex repoColIdx off rows) key = some p := by
  intro rows
  induction rows with
  | nil =>
    intro off key j hj
    simp at hj
  | cons row rest ih =>
    intro off key j hj hlen hkey
    simp only [buildNameIndex]
    cases j with
    | zero =>
      simp only [List.getD_cons_zero] at hlen hkey
      rw [if_pos hlen, lookupAssoc_append]
      cases hl : lookupAssoc (buildNameIndex repoColIdx (off + 1) rest) key with
      | some q => exact ⟨q, by simp⟩
      | none =>
        refine ⟨off, ?_⟩
        simp only [lookupAssoc]
        rw [if_pos hkey.symm]
    | succ j' =>
      simp only [List.getD_cons_succ] at hlen hkey
      have hj' : j' < rest.length := by simpa using Nat.lt_of_succ_lt_succ hj
      obtain ⟨p, hp⟩ := ih (off + 1) key j' hj' hlen hkey
      by_cases hc : repoColIdx < row.length
      · rw [if_pos hc, lookupAssoc_append, hp]
        exact ⟨p, by simp⟩
      · rw [if_neg hc]
        exact ⟨p, hp⟩

/-- Every write emitted for a record targets the record's assigned row. -/
theorem recordWrites_row (dfCols : List String) (r : Rec) (rowIdx : Nat) :
    ∀ (colIdx : Nat) (hdr : List String),
      ∀ w ∈ recordWrites dfCols r rowIdx colIdx hdr, w.row = rowIdx := by
  intro colIdx hdr
  induction hdr generalizing colIdx with
  | nil => intro w hw; simp [recordWrites] at hw
  | cons c rest ih =>
    intro w hw
    simp only [recordWrites] at hw
    by_cases hc : c ∈ dfCols
    · rw [if_pos hc] at hw
      rcases List.mem_cons.mp hw with hw | hw
      · rw [hw]
      · exact ih (colIdx + 1) w hw
    · rw [if_neg hc] at hw
      exact ih (colIdx + 1) w hw

/-- Every write emitted for a record lands in a column enumerated from
the header whose name is also one of the batch's columns. -/
theorem recordWrites_col (dfCols : List String) (r : Rec) (rowIdx : Nat) :
    ∀ (colIdx : Nat) (hdr : List String),
      ∀ w ∈ recordWrites dfCols r rowIdx colIdx hdr,
        ∃ j, j < hdr.length ∧ w.col = colIdx + j ∧ hdr.getD j "" ∈ dfCols := by
  intro colIdx hdr
  induction hdr generalizing colIdx with
  | nil => intro w hw; simp [recordWrites] at hw
  | cons c rest ih =>
    intro w hw
    simp only [recordWrites] at hw
    by_cases hc : c ∈ dfCols
    · rw [if_pos hc] at hw
      rcases List.mem_cons.mp hw with hw | hw
      · exact ⟨0, by simp, by simp [hw], by simpa using hc⟩
      · obtain ⟨j, hj, hcol, hmem⟩ := ih (colIdx + 1) w hw
        exact ⟨j + 1, by simpa using Nat.succ_lt_succ hj, by omega,
          by simpa [List.getD_cons_succ] using hmem⟩
    · rw [if_neg hc] at hw
      obtain ⟨j, hj, hcol, hmem⟩ := ih (colIdx + 1) w hw
      exact ⟨j + 1, by simpa using Nat.succ_lt_succ hj, by omega,
        by simpa [List.getD_cons_succ] using hmem⟩

/-- The fold state never decreases. -/
theorem stateAfter_mono (nameIdx : List (String × Nat)) :
    ∀ (recs : List Rec) (n n' : Nat),
      stateAfter nameIdx n recs = some n' → n ≤ n' := by
  intro recs
  induction recs with
  | nil =>
    intro n n' h
    simp only [stateAfter, Option.some.injEq] at h
    omega
  | cons r rest ih =>
    intro n n' h
    cases hl : lookupAssoc r "Repository Name" with
    | none => simp [stateAfter, hl] at h
    | some c =>
      cases c with
      | str idVal =>
        cases hm : lookupAssoc nameIdx (extract_display_name idVal) with
        | some p =>
          simp only [stateAfter, hl, hm] at h
          exact ih n n' h
        | none =>
          simp only [stateAfter, hl, hm] at h
          have := ih (n + 1) n' h
          omega
      | num k => simp [stateAfter, hl] at h
      | pynone => simp [stateAfter, hl] at h

/-- Splitting a `processRecords` run at a batch prefix. -/
theorem processRecords_append (header dfCols : List String)
    (nameIdx : List (String × Nat)) :
    ∀ (pre rest : List Rec) (n : Nat) (ws : List CellWrite),
      processRecords header dfCols nameIdx n (pre ++ rest) = some ws →
      ∃ ws1 n' ws2, processRecords header dfCols nameIdx n pre = some ws1 ∧
        stateAfter nameIdx n pre = some n' ∧
        processRecords header dfCols nameIdx n' rest = some ws2 ∧
        ws = ws1 ++ ws2 := by
  intro pre
  induction pre with
  | nil =>
    intro rest n ws h
    exact ⟨[], n, ws, rfl, rfl, by simpa using h, by simp⟩
  | cons r pre ih =>
    intro rest n ws h
    rw [List.cons_append] at h
    cases hl : lookupAssoc r "Repository Name" with
    | none => simp [processRecords, hl] at h
    | some c =>
      cases c with
      | str idVal =>
        cases hm : lookupAssoc nameIdx (extract_display_name idVal) with
        | some p =>
          cases hrec : processRecords header dfCols nameIdx n (pre ++ rest) with
          | none => simp [processRecords, hl, hm, hrec] at h
          | some ws' =>
            simp only [processRecords, hl, hm, hrec, Option.some.injEq] at h
            obtain ⟨ws1, n', ws2, h1, h2, h3, h4⟩ := ih rest n ws' hrec
            refine ⟨recordWritesAll header dfCols r p ++ ws1, n', ws2, ?_, ?_, h3, ?_⟩
            · simp only [processRecords, hl, hm, h1]
            · simp only [stateAfter, hl, hm]
              exact h2
            · rw [← h, h4, List.append_assoc]
        | none =>
          cases hrec : processRecords header dfCols nameIdx (n + 1) (pre ++ rest) with
          | none => simp [processRecords, hl, hm, hrec] at h
          | some ws' =>
            simp only [processRecords, hl, hm, hrec, Option.some.injEq] at h
            obtain ⟨ws1, n', ws2, h1, h2, h3, h4⟩ := ih rest (n + 1) ws' hrec
            refine ⟨recordWritesAll header dfCols r (n + 1) ++ ws1, n', ws2, ?_, ?_, h3, ?_⟩
            · simp only [processRecords, hl, hm, h1]
            · simp only [stateAfter, hl, hm]
              exact h2
            · rw [← h, h4, List.append_assoc]
      | num k => simp [processRecords, hl] at h
      | pynone => simp [processRecords, hl] at h

/-- Unfolding one batch step: the head record is written either at its
`name_to_row` position (matched) or at `n + 1` (appended, advancing the
state). -/
theorem processRecords_cons_some {header dfCols : List String}
    {nameIdx : List (String × Nat)} {n : Nat} {r : Rec} {rest : List Rec}
    {ws : List CellWrite}
    (h : processRecords header dfCols nameIdx n (r :: rest) = some ws) :
    ∃ idVal, lookupAssoc r "Repository Name" = some (Cell.str idVal) ∧
      ((∃ p ws', lookupAssoc nameIdx (extract_display_name idVal) = some p ∧
          processRecords header dfCols nameIdx n rest = some ws' ∧
          ws = recordWritesAll header dfCols r p ++ ws') ∨
        (∃ ws', lookupAssoc nameIdx (extract_display_name idVal) = none ∧
          processRecords header dfCols nameIdx (n + 1) rest = some ws' ∧
          ws = recordWritesAll header dfCols r (n + 1) ++ ws')) := by
  cases hl : lookupAssoc r "Repository Name" with
  | none => simp [processRecords, hl] at h
  | some c =>
    cases c with
    | str idVal =>
      refine ⟨idVal, rfl, ?_⟩
      cases hm : lookupAssoc nameIdx (extract_display_name idVal) with
      | some p =>
        cases hrec : processRecords header dfCols nameIdx n rest with
        | none => simp [processRecords, hl, hm, hrec] at h
        | some ws' =>
          simp only [processRecords, hl, hm, hrec, Option.some.injEq] at h
          exact Or.inl ⟨p, ws', rfl, rfl, h.symm⟩
      | none =>
        cases hrec : processRecords header dfCols nameIdx (n + 1) rest with
        | none => simp [processRecords, hl, hm, hrec] at h
        | some ws' =>
          simp only [processRecords, hl, hm, hrec, Option.some.injEq] at h
          exact Or.inr ⟨ws', rfl, rfl, h.symm⟩
    | num k => simp [processRecords, hl] at h
    | pynone => simp [processRecords, hl] at h

/-- Every write in a batch output belongs to some record's write chunk. -/
theorem processRecords_writes_mem (header dfCols : List String)
    (nameIdx : List (String × Nat)) :
    ∀ (recs : List Rec) (n : Nat) (ws : List CellWrite),
      processRecords header dfCols nameIdx n recs = some ws →
      ∀ w ∈ ws, ∃ r p, w ∈ recordWritesAll header dfCols r p := by
  intro recs
  induction recs with
  | nil =>
    intro n ws h w hw
    simp only [processRecords, Option.some.injEq] at h
    rw [← h] at hw
    simp at hw
  | cons r rest ih =>
    intro n ws h w hw
    obtain ⟨idVal, hl, hcase⟩ := processRecords_cons_some h
    rcases hcase with ⟨p, ws', hm, hrec, hws⟩ | ⟨ws', hm, hrec, hws⟩ <;>
      rw [hws] at hw <;>
      rcases List.mem_append.mp hw with hw | hw
    · exact ⟨r, p, hw⟩
    · exact ih n ws' hrec w hw
    · exact ⟨r, n + 1, hw⟩
    · exact ih (n + 1) ws' hrec w hw

/-- A successful header lookup points at an occurrence of the name. -/
theorem get_column_index_some :
    ∀ (header : List String) (nm : String) (i : Nat),
      get_column_index header nm = some i →
      i < header.length ∧ header.getD i "" = nm := by
  intro header
  induction header with
  | nil =>
    intro nm i h
    simp [get_column_index] at h
  | cons c rest ih =>
    intro nm i h
    by_cases hc : c = nm
    · simp only [get_column_index, if_pos hc, Option.some.injEq] at h
      subst h
      exact ⟨by simp, by simpa using hc⟩
    · simp only [get_column_index, if_neg hc, Option.map_eq_some'] at h
      obtain ⟨j, hj, hji⟩ := h
      obtain ⟨h1, h2⟩ := ih nm j hj
      subst hji
      exact ⟨by simpa using Nat.succ_lt_succ h1, by simpa [List.getD_cons_succ] using h2⟩

/-- The header lookup succeeds exactly on names present in the header. -/
theorem get_column_index_isSome_iff (header : List String) (nm : String) :
    (get_column_index header nm).isSome ↔ nm ∈ header := by
  induction header with
  | nil => simp [get_column_index]
  | cons c rest ih =>
    by_cases hc : c = nm
    · simp [get_column_index, hc]
    · simp only [get_column_index, if_neg hc]
      rw [List.mem_cons]
      constructor
      · intro h
        exact Or.inr (ih.mp (by simpa using h))
      · intro h
        rcases h with h | h
        · exact absurd h.symm hc
        · simpa using ih.mpr h

theorem countP_eq_one_of_nodup_mem :
    ∀ (l : List String) (nm : String), l.Nodup → nm ∈ l →
      l.countP (fun x => decide (x = nm)) = 1 := by
  intro l
  induction l with
  | nil => intro nm _ hm; simp at hm
  | cons x rest ih =>
    intro nm hnd hm
    rw [List.countP_cons]
    rcases List.mem_cons.mp hm with hx | hx
    · subst hx
      have hnotin : nm ∉ rest := (List.nodup_cons.mp hnd).1
      have hz : rest.countP (fun y => decide (y = nm)) = 0 :=
        List.countP_eq_zero.mpr (fun a ha => by
          simp only [decide_eq_true_eq]
          intro hc
          exact hnotin (hc ▸ ha))
      simp [hz]
    · have hxne : x ≠ nm := by
        intro hc
        exact (List.nodup_cons.mp hnd).1 (hc ▸ hx)
      rw [ih nm (List.nodup_cons.mp hnd).2 hx]
      simp [hxne]

/-- Per-set rule count: one rule per configured name present in the header. -/
theorem formattingRulesFor_length (header : List String) (dfLen : Nat)
    (color : Color) :
    ∀ names : List String,
      (formattingRulesFor header dfLen color names).length
        = names.countP (fun nm => decide (nm ∈ header)) := by
  intro names
  induction names with
  | nil => simp [formattingRulesFor]
  | cons nm rest ih =>
    rw [List.countP_cons]
    cases hidx : get_column_index header nm with
    | none =>
      have hnotmem : nm ∉ header := by
        intro hmem
        have := (get_column_index_isSome_iff header nm).mpr hmem
        rw [hidx] at this
        simp at this
      simp only [formattingRulesFor, List.filterMap_cons, hidx, Option.map_none'] at ih ⊢
      simp [ih, hnotmem]
    | some ci =>
      have hmem : nm ∈ header := by
        have : (get_column_index header nm).isSome := by rw [hidx]; rfl
        exact (get_column_index_isSome_iff header nm).mp this
      simp only [formattingRulesFor, List.filterMap_cons, hidx, Option.map_some'] at ih ⊢
      simp [ih, hmem]

/-- Per-set count of rules targeting the column of a given name. -/
theorem formattingRulesFor_countP_col (header : List String) (dfLen : Nat)
    (color : Color) (nm : String) (idxN : Nat)
    (hidx : get_column_index header nm = some idxN) :
    ∀ names : List String,
      ((formattingRulesFor header dfLen color names).countP
          (fun ru => decide (ru.startColumnIndex = idxN)))
        = names.countP (fun x => decide (x = nm)) := by
  intro names
  induction names with
  | nil => simp [formattingRulesFor]
  | cons x rest ih =>
    rw [List.countP_cons]
    cases hx : get_column_index header x with
    | none =>
      have hxne : ¬ (x = nm) := by
        intro hc
        rw [hc, hidx] at hx
        exact absurd hx (by simp)
      simp only [formattingRulesFor, List.filterMap_cons, hx, Option.map_none'] at ih ⊢
      simp [ih, hxne]
    | some ci =>
      have hiff : (ci = idxN) ↔ (x = nm) := by
        constructor
        · intro hc
          obtain ⟨hlt1, hget1⟩ := get_column_index_some header x ci hx
          obtain ⟨hlt2, hget2⟩ := get_column_index_some header nm idxN hidx
          rw [← hget1, ← hget2, hc]
        · intro hc
          rw [hc, hidx] at hx
          exact (Option.some_injective _ hx).symm
      simp only [formattingRulesFor, List.filterMap_cons, hx, Option.map_some'] at ih ⊢
      rw [List.countP_cons, ih]
      by_cases hc : x = nm
      · simp [hc, hiff.mpr hc]
      · have : ¬ (ci = idxN) := fun hcc => hc (hiff.mp hcc)
        simp [hc, this]

/- ### Claims C1–C3, C7, C8: reconciliation -/

/-- Claim C1: a fresh record whose decoded identity equals the decoded
identity of some existing data row (one long enough to hold the identity
column) is updated in place: all of its CellWrites land on a single
position `p` that is the position of an existing data row decoding to
the same identity (`p = 3 + j ≤ len(existing)`), never an appended
position. -/
theorem c1_matched_updates_in_place
    (header : List String) (existing : List (List String)) (dfCols : List String)
    (pre post : List Rec) (r : Rec) (ws : List CellWrite)
    (rules : List FormattingRule) (repoColIdx : Nat) (idVal : String) (i : Nat)
    (hidx : get_column_index header "Repository Name" = some repoColIdx)
    (hid : lookupAssoc r "Repository Name" = some (Cell.str idVal))
    (hrun : update_google_sheet header existing dfCols (pre ++ (r :: post))
      = some (ws, rules))
    (hi : i < (existing.drop 2).length)
    (hrow : repoColIdx < ((existing.drop 2).getD i []).length)
    (hkey : extract_display_name (((existing.drop 2).getD i []).getD repoColIdx "")
      = extract_display_name idVal) :
    ∃ p ws1 ws2,
      ws = ws1 ++ recordWritesAll header dfCols r p ++ ws2
      ∧ (∀ w ∈ recordWritesAll header dfCols r p, w.row = p)
      ∧ (∃ j, j < (existing.drop 2).length ∧ p = 3 + j
          ∧ repoColIdx < ((existing.drop 2).getD j []).length
          ∧ extract_display_name (((existing.drop 2).getD j []).getD repoColIdx "")
              = extract_display_name idVal)
      ∧ p ≤ existing.length := by
  cases hproc : processRecords header dfCols
      (buildNameIndex repoColIdx 3 (existing.drop 2)) existing.length
      (pre ++ (r :: post)) with
  | none => simp [update_google_sheet, hidx, hproc] at hrun
  | some ws0 =>
    simp only [update_google_sheet, hidx, hproc, Option.some.injEq,
      Prod.mk.injEq] at hrun
    obtain ⟨hws0, _⟩ := hrun
    subst hws0
    obtain ⟨p, hp⟩ := lookup_buildNameIndex_of_match repoColIdx (existing.drop 2) 3
      (extract_display_name idVal) i hi hrow hkey
    obtain ⟨j, hj, hpj, hjlen, hjkey⟩ :=
      lookup_buildNameIndex_some repoColIdx (existing.drop 2) 3
        (extract_display_name idVal) p hp
    obtain ⟨ws1, n', ws2c, h1, h2, h3, h4⟩ :=
      processRecords_append header dfCols _ pre (r :: post) existing.length _ hproc
    obtain ⟨idVal', hl', hcase⟩ := processRecords_cons_some h3
    have hveq : idVal' = idVal := by
      have := hl'.symm.trans hid
      simpa using this
    subst hveq
    rcases hcase with ⟨p', ws', hm', hrec', hws'⟩ | ⟨ws', hm', hrec', hws'⟩
    · have hpeq : p' = p := by
        have := hm'.symm.trans hp
        simpa using this
      subst hpeq
      refine ⟨p', ws1, ws', ?_, ?_, ⟨j, hj, hpj, hjlen, hjkey⟩, ?_⟩
      · rw [h4, hws', List.append_assoc]
      · intro w hw
        exact recordWrites_row dfCols r p' 1 header w hw
      · have hdl : (existing.drop 2).length = existing.length - 2 :=
          List.length_drop 2 existing
        omega
    · rw [hm'] at hp
      exact absurd hp (by simp)

/-- Claim C2: fresh records whose decoded identity matches no existing
data row are appended strictly after the highest existing row position
(`len(existing)`), and two such records in one batch receive strictly
increasing, non-colliding positions in encounter order. -/
theorem c2_unmatched_appends
    (header : List String) (existing : List (List String)) (dfCols : List String)
    (records : List Rec) (ws : List CellWrite) (rules : List FormattingRule)
    (repoColIdx : Nat)
    (hidx : get_column_index header "Repository Name" = some repoColIdx)
    (hrun : update_google_sheet header existing dfCols records = some (ws, rules)) :
    (∀ pre r post idVal,
        records = pre ++ (r :: post) →
        lookupAssoc r "Repository Name" = some (Cell.str idVal) →
        (∀ j, j < (existing.drop 2).length →
          repoColIdx < ((existing.drop 2).getD j []).length →
          extract_display_name (((existing.drop 2).getD j []).getD repoColIdx "")
            ≠ extract_display_name idVal) →
        ∃ p ws1 ws2, ws = ws1 ++ recordWritesAll header dfCols r p ++ ws2
          ∧ existing.length < p
          ∧ ∀ w ∈ recordWritesAll header dfCols r p, w.row = p)
    ∧ (∀ pre r1 mid r2 post id1 id2,
        records = pre ++ (r1 :: (mid ++ (r2 :: post))) →
        lookupAssoc r1 "Repository Name" = some (Cell.str id1) →
        lookupAssoc r2 "Repository Name" = some (Cell.str id2) →
        (∀ j, j < (existing.drop 2).length →
          repoColIdx < ((existing.drop 2).getD j []).length →
          extract_display_name (((existing.drop 2).getD j []).getD repoColIdx "")
            ≠ extract_display_name id1) →
        (∀ j, j < (existing.drop 2).length →
          repoColIdx < ((existing.drop 2).getD j []).length →
          extract_display_name (((existing.drop 2).getD j []).getD repoColIdx "")
            ≠ extract_display_name id2) →
        ∃ p1 p2 ws1 ws2 ws3,
          ws = ws1 ++ recordWritesAll header dfCols r1 p1
            ++ (ws2 ++ recordWritesAll header dfCols r2 p2 ++ ws3)
          ∧ existing.length < p1 ∧ p1 < p2
          ∧ (∀ w ∈ recordWritesAll header dfCols r1 p1, w.row = p1)
          ∧ (∀ w ∈ recordWritesAll header dfCols r2 p2, w.row = p2)) := by
  cases hproc : processRecords header dfCols
      (buildNameIndex repoColIdx 3 (existing.drop 2)) existing.length records with
  | none => simp [update_google_sheet, hidx, hproc] at hrun
  | some ws0 =>
    simp only [update_google_sheet, hidx, hproc, Option.some.injEq,
      Prod.mk.injEq] at hrun
    obtain ⟨hws0, _⟩ := hrun
    subst hws0
    constructor
    · intro pre r post idVal hsplit hid hnomatch
      subst hsplit
      have hmnone : lookupAssoc (buildNameIndex repoColIdx 3 (existing.drop 2))
          (extract_display_name idVal) = none := by
        cases hm : lookupAssoc (buildNameIndex repoColIdx 3 (existing.drop 2))
            (extract_display_name idVal) with
        | none => rfl
        | some p =>
          obtain ⟨j, hj, hpj, hjl, hjk⟩ :=
            lookup_buildNameIndex_some repoColIdx (existing.drop 2) 3 _ p hm
          exact absurd hjk (hnomatch j hj hjl)
      obtain ⟨ws1, n', ws2c, h1, h2, h3, h4⟩ :=
        processRecords_append header dfCols _ pre (r :: post) existing.length _ hproc
      obtain ⟨idVal', hl', hcase⟩ := processRecords_cons_some h3
      have hveq : idVal' = idVal := by
        have := hl'.symm.trans hid
        simpa using this
      subst hveq
      have hmono := stateAfter_mono _ pre existing.length n' h2
      rcases hcase with ⟨p', ws', hm', hrec', hws'⟩ | ⟨ws', hm', hrec', hws'⟩
      · rw [hmnone] at hm'
        exact absurd hm' (by simp)
      · refine ⟨n' + 1, ws1, ws', ?_, by omega, ?_⟩
        · rw [h4, hws', List.append_assoc]
        · intro w hw
          exact recordWrites_row dfCols r (n' + 1) 1 header w hw
    · intro pre r1 mid r2 post id1 id2 hsplit hid1 hid2 hno1 hno2
      subst hsplit
      have hmnone1 : lookupAssoc (buildNameIndex repoColIdx 3 (existing.drop 2))
          (extract_display_name id1) = none := by
        cases hm : lookupAssoc (buildNameIndex repoColIdx 3 (existing.drop 2))
            (extract_display_name id1) with
        | none => rfl
        | some p =>
          obtain ⟨j, hj, hpj, hjl, hjk⟩ :=
            lookup_buildNameIndex_some repoColIdx (existing.drop 2) 3 _ p hm
          exact absurd hjk (hno1 j hj hjl)
      have hmnone2 : lookupAssoc (buildNameIndex repoColIdx 3 (existing.drop 2))
          (extract_display_name id2) = none := by
        cases hm : lookupAssoc (buildNameIndex repoColIdx 3 (existing.drop 2))
            (extract_display_name id2) with
        | none => rfl
        | some p =>
          obtain ⟨j, hj, hpj, hjl, hjk⟩ :=
            lookup_buildNameIndex_some repoColIdx (existing.drop 2) 3 _ p hm
          exact absurd hjk (hno2 j hj hjl)
      obtain ⟨ws1, n1, wsA, h1, h2, h3, h4⟩ :=
        processRecords_append header dfCols _ pre (r1 :: (mid ++ (r2 :: post)))
          existing.length _ hproc
      have hmono1 := stateAfter_mono _ pre existing.length n1 h2
      obtain ⟨idVal1, hl1, hcase1⟩ := processRecords_cons_some h3
      have hveq1 : idVal1 = id1 := by
        have := hl1.symm.trans hid1
        simpa using this
      subst hveq1
      rcases hcase1 with ⟨p', ws', hm', hrec', hws'⟩ | ⟨wsB, hm1, hrecB, hwsA⟩
      · rw [hmnone1] at hm'
        exact absurd hm' (by simp)
      obtain ⟨ws2, n2, wsC, g1, g2, g3, g4⟩ :=
        processRecords_append header dfCols _ mid (r2 :: post) (n1 + 1) _ hrecB
      have hmono2 := stateAfter_mono _ mid (n1 + 1) n2 g2
      obtain ⟨idVal2, hl2, hcase2⟩ := processRecords_cons_some g3
      have hveq2 : idVal2 = id2 := by
        have := hl2.symm.trans hid2
        simpa using this
      subst hveq2
      rcases hcase2 with ⟨p', ws', hm', hrec', hws'⟩ | ⟨wsD, hm2, hrecD, hwsC⟩
      · rw [hmnone2] at hm'
        exact absurd hm' (by simp)
      refine ⟨n1 + 1, n2 + 1, ws1, ws2, wsD, ?_, by omega, by omega, ?_, ?_⟩
      · rw [h4, hwsA, g4, hwsC]
        simp [List.append_assoc]
      · intro w hw
        exact recordWrites_row dfCols r1 (n1 + 1) 1 header w hw
      · intro w hw
        exact recordWrites_row dfCols r2 (n2 + 1) 1 header w hw

/-- Claim C3 counterexample: two records in the same fresh batch decode
to the same identity key `"a"`, which matches no existing row; the code
never adds freshly appended names to `name_to_row`, so the duplicate is
*not* written to the same position — the first record's writes target
row 3 and the second's row 4 (a second row is created). -/
theorem c3_counterexample :
    (update_google_sheet ["Repository Name"] [[""], ["Repository Name"]]
        ["Repository Name"]
        [[("Repository Name", Cell.str "a")], [("Repository Name", Cell.str "a")]]).map
      (fun pr => pr.1.map (fun w => (w.row, w.col)))
      = some [(3, 1), (4, 1)]
    ∧ extract_display_name "a" = extract_display_name "a"
    ∧ (3 : Nat) ≠ 4 := by
  exact ⟨by decide, rfl, by decide⟩

/-- Claim C3 (amended): when the shared identity key *does* match an
existing data row, both duplicate records' CellWrites target that same
single position `p`, the later record's chunk coming after the earlier
one in the submitted batch (so its values win on overlapping columns);
duplicate keys matching no existing row instead get distinct appended
rows (see the counterexample). -/
theorem c3_matched_duplicates_share_row
    (header : List String) (existing : List (List String)) (dfCols : List String)
    (pre mid post : List Rec) (r1 r2 : Rec) (ws : List CellWrite)
    (rules : List FormattingRule) (repoColIdx : Nat) (id1 id2 : String) (i : Nat)
    (hidx : get_column_index header "Repository Name" = some repoColIdx)
    (hid1 : lookupAssoc r1 "Repository Name" = some (Cell.str id1))
    (hid2 : lookupAssoc r2 "Repository Name" = some (Cell.str id2))
    (hsame : extract_display_name id1 = extract_display_name id2)
    (hrun : update_google_sheet header existing dfCols
      (pre ++ (r1 :: (mid ++ (r2 :: post)))) = some (ws, rules))
    (hi : i < (existing.drop 2).length)
    (hrow : repoColIdx < ((existing.drop 2).getD i []).length)
    (hkey : extract_display_name (((existing.drop 2).getD i []).getD repoColIdx "")
      = extract_display_name id1) :
    ∃ p ws1 ws2 ws3,
      ws = ws1 ++ recordWritesAll header dfCols r1 p
        ++ (ws2 ++ recordWritesAll header dfCols r2 p ++ ws3)
      ∧ p ≤ existing.length
      ∧ (∀ w ∈ recordWritesAll header dfCols r1 p, w.row = p)
      ∧ (∀ w ∈ recordWritesAll header dfCols r2 p, w.row = p) := by
  cases hproc : processRecords header dfCols
      (buildNameIndex repoColIdx 3 (existing.drop 2)) existing.length
      (pre ++ (r1 :: (mid ++ (r2 :: post)))) with
  | none => simp [update_google_sheet, hidx, hproc] at hrun
  | some ws0 =>
    simp only [update_google_sheet, hidx, hproc, Option.some.injEq,
      Prod.mk.injEq] at hrun
    obtain ⟨hws0, _⟩ := hrun
    subst hws0
    obtain ⟨p, hp⟩ := lookup_buildNameIndex_of_match repoColIdx (existing.drop 2) 3
      (extract_display_name id1) i hi hrow hkey
    obtain ⟨j, hj, hpj, hjlen, hjkey⟩ :=
      lookup_buildNameIndex_some repoColIdx (existing.drop 2) 3
        (extract_display_name id1) p hp
    obtain ⟨ws1, n1, wsA, h1, h2, h3, h4⟩ :=
      processRecords_append header dfCols _ pre (r1 :: (mid ++ (r2 :: post)))
        existing.length _ hproc
    obtain ⟨idVal1, hl1, hcase1⟩ := processRecords_cons_some h3
    have hveq1 : idVal1 = id1 := by
      have := hl1.symm.trans hid1
      simpa using this
    subst hveq1
    rcases hcase1 with ⟨p1, wsB, hm1, hrecB, hwsA⟩ | ⟨wsB, hm1, hrecB, hwsA⟩
    swap
    · rw [hm1] at hp
      exact absurd hp (by simp)
    have hp1 : p1 = p := by
      have := hm1.symm.trans hp
      simpa using this
    subst hp1
    obtain ⟨ws2, n2, wsC, g1, g2, g3, g4⟩ :=
      processRecords_append header dfCols _ mid (r2 :: post) n1 _ hrecB
    obtain ⟨idVal2, hl2, hcase2⟩ := processRecords_cons_some g3
    have hveq2 : idVal2 = id2 := by
      have := hl2.symm.trans hid2
      simpa using this
    subst hveq2
    rcases hcase2 with ⟨p2, wsD, hm2, hrecD, hwsC⟩ | ⟨wsD, hm2, hrecD, hwsC⟩
    swap
    · rw [← hsame, hp] at hm2
      exact absurd hm2 (by simp)
    have hp2 : p2 = p1 := by
      rw [← hsame, hp] at hm2
      exact (by simpa using hm2 : p1 = p2).symm
    subst hp2
    have hple : p2 ≤ existing.length := by
      have hdl : (existing.drop 2).length = existing.length - 2 :=
        List.length_drop 2 existing
      omega
    refine ⟨p2, ws1, ws2, wsD, ?_, hple, ?_, ?_⟩
    · rw [h4, hwsA, g4, hwsC]
      simp [List.append_assoc]
    · intro w hw
      exact recordWrites_row dfCols r1 p2 1 header w hw
    · intro w hw
      exact recordWrites_row dfCols r2 p2 1 header w hw

/-- Claim C7 counterexample: a sheet with five data rows (1-based
positions 3–7) reconciled against a single-record batch matching the
last row.  The record's CellWrites land at 1-based row 7 (0-based index
6), but the only emitted FormattingRule spans 0-based rows
`[2, 2 + len(df)) = [2, 3)` — the rule's row range fails to cover the
reconciled data row, so it is not "exactly the data-row range". -/
theorem c7_counterexample :
    (update_google_sheet ["Repository Name", "License"]
        [[""], ["Repository Name", "License"], ["a", "No"], ["b", "No"],
          ["c", "No"], ["d", "No"], ["e", "No"]]
        ["Repository Name", "License"]
        [[("Repository Name", Cell.str "e"), ("License", Cell.str "Yes")]]).map
      (fun pr => (pr.1.map (fun w => w.row),
        pr.2.map (fun ru => (ru.startRowIndex, ru.endRowIndex))))
      = some ([7, 7], [(2, 3)])
    ∧ ¬ ((2 : Nat) ≤ 7 - 1 ∧ 7 - 1 < 3) := by
  exact ⟨by decide, by decide⟩

/-- Claim C7 (amended): every emitted FormattingRule's row range starts
immediately after the header row (0-based `startRowIndex = 2`, the first
data row) and spans exactly `len(df)` rows — the size of the fresh
batch — regardless of where the reconciled rows actually are:
`endRowIndex = 2 + len(df)`.  This coincides with the data-row range
only when the reconciled rows are exactly the first `len(df)` data-row
slots. -/
theorem c7_rules_span_batch_size
    (header : List String) (existing : List (List String)) (dfCols : List String)
    (records : List Rec) (ws : List CellWrite) (rules : List FormattingRule)
    (hrun : update_google_sheet header existing dfCols records = some (ws, rules)) :
    ∀ ru ∈ rules, ru.startRowIndex = 2 ∧ ru.endRowIndex = 2 + records.length := by
  cases hidx : get_column_index header "Repository Name" with
  | none => simp [update_google_sheet, hidx] at hrun
  | some repoColIdx =>
    cases hproc : processRecords header dfCols
        (buildNameIndex repoColIdx 3 (existing.drop 2)) existing.length records with
    | none => simp [update_google_sheet, hidx, hproc] at hrun
    | some ws0 =>
      simp only [update_google_sheet, hidx, hproc, Option.some.injEq,
        Prod.mk.injEq] at hrun
      obtain ⟨_, hrules⟩ := hrun
      intro ru hru
      rw [← hrules] at hru
      simp only [buildFormattingRules, List.mem_flatMap, formattingRulesFor,
        List.mem_filterMap, Option.map_eq_some'] at hru
      obtain ⟨sc, _, nm, _, ci, _, hre⟩ := hru
      rw [← hre]
      exact ⟨rfl, rfl⟩

/-- Claim C8: every emitted CellWrite lands in a column that is
enumerated from the header (1-based column `j + 1` for some header index
`j`) *and* whose name is among the batch's columns: a record column
absent from the header yields no write, and a header column absent from
the record's column set yields no write either (prior content there
survives). -/
theorem c8_writes_respect_header_and_columns
    (header : List String) (existing : List (List String)) (dfCols : List String)
    (records : List Rec) (ws : List CellWrite) (rules : List FormattingRule)
    (hrun : update_google_sheet header existing dfCols records = some (ws, rules)) :
    ∀ w ∈ ws, ∃ j, j < header.length ∧ w.col = j + 1 ∧ header.getD j "" ∈ dfCols := by
  cases hidx : get_column_index header "Repository Name" with
  | none => simp [update_google_sheet, hidx] at hrun
  | some repoColIdx =>
    cases hproc : processRecords header dfCols
        (buildNameIndex repoColIdx 3 (existing.drop 2)) existing.length records with
    | none => simp [update_google_sheet, hidx, hproc] at hrun
    | some ws0 =>
      simp only [update_google_sheet, hidx, hproc, Option.some.injEq,
        Prod.mk.injEq] at hrun
      obtain ⟨hws0, _⟩ := hrun
      subst hws0
      intro w hw
      obtain ⟨r, p, hwmem⟩ :=
        processRecords_writes_mem header dfCols _ records existing.length ws0 hproc w hw
      obtain ⟨j, hj, hcol, hmem⟩ := recordWrites_col dfCols r p 1 header w hwmem
      exact ⟨j, hj, by omega, hmem⟩

/-- Claim C9: for any severity configuration whose configured column
names are pairwise distinct (true of the Python `set`s in both scripts)
and any header, the formatting applier emits exactly one rule per
configured name present in the header and nothing (and no error — it is
a total function) for configured names absent from the header: the
total rule count equals the number of present configured names, and for
each present name exactly one rule targets that name's header column. -/
theorem c9_one_rule_per_present_column
    (header : List String) (dfLen : Nat) (sets : List (List String × Color))
    (hnd : (sets.flatMap Prod.fst).Nodup) :
    ((buildFormattingRules header dfLen sets).length
        = (sets.flatMap Prod.fst).countP (fun nm => decide (nm ∈ header)))
    ∧ ∀ nm idxN, nm ∈ sets.flatMap Prod.fst →
        get_column_index header nm = some idxN →
        (buildFormattingRules header dfLen sets).countP
          (fun ru => decide (ru.startColumnIndex = idxN)) = 1 := by
  constructor
  · induction sets with
    | nil => simp [buildFormattingRules]
    | cons sc rest ih =>
      have hnd' : (rest.flatMap Prod.fst).Nodup := by
        rw [List.flatMap_cons] at hnd
        exact (List.nodup_append.mp hnd).2.1
      simp only [buildFormattingRules, List.flatMap_cons, List.length_append,
        List.countP_append]
      rw [formattingRulesFor_length]
      have := ih hnd'
      simp only [buildFormattingRules] at this
      rw [this]
  · intro nm idxN hmem hidx
    have key : ∀ (ss : List (List String × Color)),
        (ss.flatMap Prod.fst).Nodup →
        (buildFormattingRules header dfLen ss).countP
            (fun ru => decide (ru.startColumnIndex = idxN))
          = (ss.flatMap Prod.fst).countP (fun x => decide (x = nm)) := by
      intro ss
      induction ss with
      | nil => simp [buildFormattingRules]
      | cons sc rest ih =>
        intro hndss
        have hnd' : (rest.flatMap Prod.fst).Nodup := by
          rw [List.flatMap_cons] at hndss
          exact (List.nodup_append.mp hndss).2.1
        simp only [buildFormattingRules, List.flatMap_cons, List.countP_append]
        rw [formattingRulesFor_countP_col header dfLen sc.2 nm idxN hidx]
        have := ih hnd'
        simp only [buildFormattingRules] at this
        rw [this]
    rw [key sets hnd]
    exact countP_eq_one_of_nodup_mem _ nm hnd hmem

/-- Witness for C1 at the spec's concrete scenario (record `"a"`
matching the single existing data row). -/
theorem c1_matched_updates_in_place_witness :
    ∃ p ws1 ws2,
      ([⟨3, 1, Cell.str "a"⟩, ⟨3, 2, Cell.str "Yes"⟩] : List CellWrite)
        = ws1 ++ recordWritesAll ["Repository Name", "License"]
            ["Repository Name", "License"]
            [("Repository Name", Cell.str "a"), ("License", Cell.str "Yes")] p ++ ws2
      ∧ (∀ w ∈ recordWritesAll ["Repository Name", "License"]
            ["Repository Name", "License"]
            [("Repository Name", Cell.str "a"), ("License", Cell.str "Yes")] p,
          w.row = p)
      ∧ (∃ j, j < 1 ∧ p = 3 + j
          ∧ 0 < (([["a", "No"]] : List (List String)).getD j []).length
          ∧ extract_display_name ((([["a", "No"]] : List (List String)).getD j []).getD 0 "")
              = extract_display_name "a")
      ∧ p ≤ 3 :=
  c1_matched_updates_in_place
    ["Repository Name", "License"]
    [[""], ["Repository Name", "License"], ["a", "No"]]
    ["Repository Name", "License"]
    [] []
    [("Repository Name", Cell.str "a"), ("License", Cell.str "Yes")]
    [⟨3, 1, Cell.str "a"⟩, ⟨3, 2, Cell.str "Yes"⟩]
    [⟨2, 3, 1, 2, redColor, "No"⟩]
    0 "a" 0
    (by decide) (by decide) (by decide) (by decide) (by decide) (by decide)

/-- Witness for C2: two new repositories `"y"`, `"z"` against a sheet
whose only data row is `"a"` (positions 4 and 5, strictly increasing,
both past `len(existing) = 3`). -/
theorem c2_unmatched_appends_witness :
    ∃ p1 p2 ws1 ws2 ws3,
      ([⟨4, 1, Cell.str "y"⟩, ⟨5, 1, Cell.str "z"⟩] : List CellWrite)
        = ws1 ++ recordWritesAll ["Repository Name", "License"] ["Repository Name"]
            [("Repository Name", Cell.str "y")] p1
          ++ (ws2 ++ recordWritesAll ["Repository Name", "License"] ["Repository Name"]
            [("Repository Name", Cell.str "z")] p2 ++ ws3)
      ∧ 3 < p1 ∧ p1 < p2
      ∧ (∀ w ∈ recordWritesAll ["Repository Name", "License"] ["Repository Name"]
            [("Repository Name", Cell.str "y")] p1, w.row = p1)
      ∧ (∀ w ∈ recordWritesAll ["Repository Name", "License"] ["Repository Name"]
            [("Repository Name", Cell.str "z")] p2, w.row = p2) :=
  (c2_unmatched_appends
      ["Repository Name", "License"]
      [[""], ["Repository Name", "License"], ["a", "No"]]
      ["Repository Name"]
      [[("Repository Name", Cell.str "y")], [("Repository Name", Cell.str "z")]]
      [⟨4, 1, Cell.str "y"⟩, ⟨5, 1, Cell.str "z"⟩]
      [⟨2, 4, 1, 2, redColor, "No"⟩]
      0 (by decide) (by decide)).2
    [] [("Repository Name", Cell.str "y")] [] [("Repository Name", Cell.str "z")] []
    "y" "z" rfl (by decide) (by decide) (by decide) (by decide)

/-- Witness for the amended C3: two records both decoding to `"a"`,
which matches the existing data row at position 3 — both chunks target
row 3, the later chunk submitted after the earlier one. -/
theorem c3_matched_duplicates_share_row_witness :
    ∃ p ws1 ws2 ws3,
      ([⟨3, 1, Cell.str "a"⟩, ⟨3, 2, Cell.str "Yes"⟩,
        ⟨3, 1, Cell.str "a"⟩, ⟨3, 2, Cell.str "No"⟩] : List CellWrite)
        = ws1 ++ recordWritesAll ["Repository Name", "License"]
            ["Repository Name", "License"]
            [("Repository Name", Cell.str "a"), ("License", Cell.str "Yes")] p
          ++ (ws2 ++ recordWritesAll ["Repository Name", "License"]
            ["Repository Name", "License"]
            [("Repository Name", Cell.str "a"), ("License", Cell.str "No")] p ++ ws3)
      ∧ p ≤ 3
      ∧ (∀ w ∈ recordWritesAll ["Repository Name", "License"]
            ["Repository Name", "License"]
            [("Repository Name", Cell.str "a"), ("License", Cell.str "Yes")] p,
          w.row = p)
      ∧ (∀ w ∈ recordWritesAll ["Repository Name", "License"]
            ["Repository Name", "License"]
            [("Repository Name", Cell.str "a"), ("License", Cell.str "No")] p,
          w.row = p) :=
  c3_matched_duplicates_share_row
    ["Repository Name", "License"]
    [[""], ["Repository Name", "License"], ["a", "No"]]
    ["Repository Name", "License"]
    [] [] []
    [("Repository Name", Cell.str "a"), ("License", Cell.str "Yes")]
    [("Repository Name", Cell.str "a"), ("License", Cell.str "No")]
    [⟨3, 1, Cell.str "a"⟩, ⟨3, 2, Cell.str "Yes"⟩,
      ⟨3, 1, Cell.str "a"⟩, ⟨3, 2, Cell.str "No"⟩]
    [⟨2, 4, 1, 2, redColor, "No"⟩]
    0 "a" "a" 0
    (by decide) (by decide) (by decide) rfl (by decide) (by decide) (by decide)
    (by decide)

/-- Witness for the amended C7: the single rule of a one-record run
spans 0-based rows `[2, 3)`. -/
theorem c7_rules_span_batch_size_witness :
    (⟨2, 3, 1, 2, redColor, "No"⟩ : FormattingRule).startRowIndex = 2
    ∧ (⟨2, 3, 1, 2, redColor, "No"⟩ : FormattingRule).endRowIndex = 3 :=
  c7_rules_span_batch_size
    ["Repository Name", "License"]
    [[""], ["Repository Name", "License"], ["a", "No"]]
    ["Repository Name", "License"]
    [[("Repository Name", Cell.str "a"), ("License", Cell.str "Yes")]]
    [⟨3, 1, Cell.str "a"⟩, ⟨3, 2, Cell.str "Yes"⟩]
    [⟨2, 3, 1, 2, redColor, "No"⟩]
    (by decide) ⟨2, 3, 1, 2, redColor, "No"⟩ (by decide)

/-- Witness for C8: the first write of the concrete run targets column
1, which is header index 0 (`"Repository Name"`), a column of the batch. -/
theorem c8_writes_respect_header_and_columns_witness :
    ∃ j, j < 2 ∧ (⟨3, 1, Cell.str "a"⟩ : CellWrite).col = j + 1
      ∧ (["Repository Name", "License"].getD j "")
          ∈ (["Repository Name", "License"] : List String) :=
  c8_writes_respect_header_and_columns
    ["Repository Name", "License"]
    [[""], ["Repository Name", "License"], ["a", "No"]]
    ["Repository Name", "License"]
    [[("Repository Name", Cell.str "a"), ("License", Cell.str "Yes")]]
    [⟨3, 1, Cell.str "a"⟩, ⟨3, 2, Cell.str "Yes"⟩]
    [⟨2, 3, 1, 2, redColor, "No"⟩]
    (by decide) ⟨3, 1, Cell.str "a"⟩ (by decide)

/-- Witness for C9 at the real `export_repos.py` configuration and a
two-column header containing one configured column ("License"). -/
theorem c9_one_rule_per_present_column_witness :
    ((buildFormattingRules ["Repository Name", "License"] 1 exportFormattingSets).length
        = (exportFormattingSets.flatMap Prod.fst).countP
            (fun nm => decide (nm ∈ (["Repository Name", "License"] : List String))))
    ∧ ∀ nm idxN, nm ∈ exportFormattingSets.flatMap Prod.fst →
        get_column_index ["Repository Name", "License"] nm = some idxN →
        (buildFormattingRules ["Repository Name", "License"] 1
            exportFormattingSets).countP
          (fun ru => decide (ru.startColumnIndex = idxN)) = 1 :=
  c9_one_rule_per_present_column ["Repository Name", "License"] 1
    exportFormattingSets (by decide)

/- ### Claims C6 and C10: the attribute extractor -/

/-- Claim C6 (code bug in the source): the attribute extractor is *not*
total.  Although the per-attribute fallbacks do work — for the handle
whose file lookup throws for `CITATION.cff`, `has_doi` yields `"No"`
and the CITATION column's `has_file` yields `"No"` — `get_repo_info`
itself always raises `TypeError`, because line 236 calls
`get_model(readme_content_lower, repo.homepage)` while `get_model`
(line 159) takes a single parameter.  The whole record is dropped by the
caller's per-repository handler, contradicting "one failing attribute
never drops the other attributes". -/
theorem c6_get_repo_info_raises_typeerror :
    get_repo_info (fun _ => Except.ok Yaml.null) 1760000000 citationThrowRepo
      = Except.error PyExc.typeError
    ∧ has_doi (fun _ => Except.ok Yaml.null) citationThrowRepo = "No"
    ∧ has_file citationThrowRepo ["CITATION.cff"] = Except.ok "No" := by
  exact ⟨rfl, rfl, rfl⟩

/-- Claim C10 (implicit, confirmed): if `get_readme()` (resp.
`get_license()`) returns a falsy value without raising, `has_readme`
(resp. `has_license`) falls off the end of the function and returns
`None` — a value outside the documented `{"Yes", "No"}` sentinel set. -/
theorem c10_falsy_lookup_returns_none (repo : Repo)
    (h1 : repo.get_readme = Except.ok none)
    (h2 : repo.get_license = Except.ok none) :
    has_readme repo = Except.ok Cell.pynone
    ∧ has_license repo = Except.ok Cell.pynone
    ∧ Cell.pynone ≠ Cell.str "Yes" ∧ Cell.pynone ≠ Cell.str "No" := by
  refine ⟨?_, ?_, by decide, by decide⟩
  · simp [has_readme, h1]
  · simp [has_license, h2]

/-- Witness for C10 at a concrete falsy handle. -/
theorem c10_falsy_lookup_returns_none_witness :
    has_readme falsyReadmeRepo = Except.ok Cell.pynone
    ∧ has_license falsyReadmeRepo = Except.ok Cell.pynone
    ∧ Cell.pynone ≠ Cell.str "Yes" ∧ Cell.pynone ≠ Cell.str "No" :=
  c10_falsy_lookup_returns_none falsyReadmeRepo rfl rfl
